import Mathlib

/-
Formal model of the chat-to-calendar core library.

Shallow embedding of the pure core of the repository:
  src/lib/schema.ts    (event model, timing validation, overlap detection,
                        schedule validation)
  src/lib/ics.ts       (RFC 5545 text escaping, line folding, UID generation,
                        VEVENT / VCALENDAR serialisation)
  src/lib/appleLink.ts (Apple Calendar URL generation)

Platform built-ins are modelled with one fixed, documented rule each:
  - JavaScript `new Date(s)` on a "YYYY-MM-DDTHH:mm" string is modelled by
    `parseLocalDT`, which accepts exactly that shape with in-range fields and
    rejects (Invalid Date, i.e. `none`) anything else.  Date comparison in JS
    compares numeric timestamps, and every comparison involving an Invalid
    Date (NaN) is false; `jsDateLt` reproduces this on `Option Nat`.
  - The host timezone is taken to be UTC, so local getters and UTC getters
    agree (the spec leaves the local-time interpretation host-dependent and
    asks a reimplementation to fix one explicit rule).
  - `Date.now()` and the DTSTAMP instant are nondeterministic inputs of the
    encoder; they appear as explicit parameters `nowMs` / `nowISO`.
  - `URLSearchParams.toString()` is modelled by `encodeParams`
    (application/x-www-form-urlencoded: ASCII alphanumerics and * - . _ kept,
    space becomes +, all other characters percent-encoded from UTF-8 bytes).
  - JavaScript string length / indexing is modelled on the `List Char` of
    code points (all repository-produced structural characters are ASCII,
    where the two notions agree).
-/

-- ============================================================================
-- Data model (schema.ts)
-- ============================================================================

/-- Mirror of the `Event` interface of schema.ts: a title, two local
date-time strings and optional description / location. -/
structure Event where
  title : String
  start_local : String
  end_local : String
  description : Option String
  location : Option String
deriving DecidableEq, Repr

instance : Inhabited Event := ⟨⟨"", "", "", none, none⟩⟩

/-- Mirror of the `ScheduleResponse` interface of schema.ts. -/
structure ScheduleResponse where
  timezone : String
  events : List Event
deriving DecidableEq, Repr

/-- Result shape of `validateSchedule`. -/
structure ValidationResult where
  isValid : Bool
  errors : List String
deriving DecidableEq, Repr

-- ============================================================================
-- Date-time parsing model (JavaScript `new Date` on YYYY-MM-DDTHH:mm)
-- ============================================================================

/-- Wall-clock fields of a parsed "YYYY-MM-DDTHH:mm" string. -/
structure LocalDT where
  year : Nat
  month : Nat
  day : Nat
  hour : Nat
  minute : Nat
deriving DecidableEq, Repr

/-- ASCII decimal digit test, as in the ECMAScript date-time grammar. -/
def isDigitChar (c : Char) : Bool :=
  '0' ≤ c && c ≤ '9'

/-- Numeric value of an ASCII digit character. -/
def digitVal (c : Char) : Nat :=
  c.toNat - 48

/-- Fixed parsing rule for the repository's date-time strings: exactly the
shape `YYYY-MM-DDTHH:mm` with all-digit fields in range (month 1..12,
day 1..31, hour 0..23, minute 0..59) parses; everything else is an
Invalid Date (`none`), matching ECMAScript rejection of malformed or
out-of-range date-time strings. -/
def parseLocalDT (s : String) : Option LocalDT :=
  match s.data with
  | [y1, y2, y3, y4, c1, m1, m2, c2, d1, d2, c3, h1, h2, c4, n1, n2] =>
    if c1 = '-' && c2 = '-' && c3 = 'T' && c4 = ':' &&
       isDigitChar y1 && isDigitChar y2 && isDigitChar y3 && isDigitChar y4 &&
       isDigitChar m1 && isDigitChar m2 && isDigitChar d1 && isDigitChar d2 &&
       isDigitChar h1 && isDigitChar h2 && isDigitChar n1 && isDigitChar n2
    then
      let y := ((digitVal y1 * 10 + digitVal y2) * 10 + digitVal y3) * 10 + digitVal y4
      let mo := digitVal m1 * 10 + digitVal m2
      let d := digitVal d1 * 10 + digitVal d2
      let h := digitVal h1 * 10 + digitVal h2
      let mi := digitVal n1 * 10 + digitVal n2
      if 1 ≤ mo && mo ≤ 12 && 1 ≤ d && d ≤ 31 && h ≤ 23 && mi ≤ 59
      then some ⟨y, mo, d, h, mi⟩
      else none
    else none
  | _ => none

/-- Strictly monotone numeric timestamp of a parsed date-time (a mixed-radix
encoding of the lexicographic field order, standing in for the JavaScript
millisecond timestamp). -/
def dtMinutes (t : LocalDT) : Nat :=
  (((t.year * 12 + (t.month - 1)) * 31 + (t.day - 1)) * 24 + t.hour) * 60 + t.minute

/-- Timestamp of a date-time string under the fixed parsing rule;
`none` models an Invalid Date (NaN timestamp). -/
def parseDTNum (s : String) : Option Nat :=
  (parseLocalDT s).map dtMinutes

/-- JavaScript `<` on two Date values: numeric comparison of timestamps,
false whenever either side is Invalid (NaN). -/
def jsDateLt : Option Nat → Option Nat → Bool
  | some a, some b => decide (a < b)
  | _, _ => false

-- ============================================================================
-- Validation utilities (schema.ts)
-- ============================================================================

/-- Mirror of `isValidEventTiming`: `new Date(end_local) > new Date(start_local)`. -/
def isValidEventTiming (event : Event) : Bool :=
  jsDateLt (parseDTNum event.start_local) (parseDTNum event.end_local)

/-- Mirror of `eventsOverlap`: `start1 < end2 && start2 < end1`. -/
def eventsOverlap (event1 event2 : Event) : Bool :=
  jsDateLt (parseDTNum event1.start_local) (parseDTNum event2.end_local) &&
  jsDateLt (parseDTNum event2.start_local) (parseDTNum event1.end_local)

/-- Mirror of `findOverlappingEvents`: the double loop `i` from 0,
`j` from `i+1`, pushing `(i, j)` whenever the events overlap.  The inner
loop starting at `i+1` is rendered as a filter `i < j` over the full index
range, which visits exactly the same `j` in the same order. -/
def findOverlappingEvents (events : List Event) : List (Nat × Nat) :=
  (List.range events.length).flatMap fun i =>
    (List.range events.length).filterMap fun j =>
      if i < j ∧ eventsOverlap (events.getD i default) (events.getD j default) = true
      then some (i, j) else none

/-- Decimal digit character (only ever applied to values below ten). -/
def decChar (d : Nat) : Char :=
  match d with
  | 0 => '0' | 1 => '1' | 2 => '2' | 3 => '3' | 4 => '4'
  | 5 => '5' | 6 => '6' | 7 => '7' | 8 => '8' | _ => '9'

/-- Fuel-driven digit expansion; `natToDecimal` always supplies enough
fuel, keeping the definition structurally recursive and hence
kernel-computable. -/
def natToDecimalAux : Nat → Nat → List Char
  | 0, _ => []
  | fuel + 1, n =>
    if n < 10 then [decChar n]
    else natToDecimalAux fuel (n / 10) ++ [decChar (n % 10)]

/-- Decimal rendering of a natural number, as JavaScript template-literal
interpolation of a number renders it. -/
def natToDecimal (n : Nat) : List Char :=
  natToDecimalAux (n + 1) n

/-- Decimal rendering as a string. -/
def natDecimalString (n : Nat) : String :=
  ⟨natToDecimal n⟩

/-- Reads a decimal digit list back to a number (proof tool for injectivity
of the decimal rendering). -/
def decodeDec (l : List Char) : Nat :=
  l.foldl (fun a c => a * 10 + (c.toNat - 48)) 0

/-- Timing error message of `validateSchedule`:
`Event ${index + 1} (${event.title}): end time must be after start time`. -/
def timingErrorMsg (index : Nat) (event : Event) : String :=
  "Event " ++ natDecimalString (index + 1) ++ " (" ++ event.title ++
    "): end time must be after start time"

/-- Overlap error message of `validateSchedule`:
`Events overlap: "${events[i].title}" and "${events[j].title}"`. -/
def overlapErrorMsg (events : List Event) (p : Nat × Nat) : String :=
  "Events overlap: \"" ++ (events.getD p.1 default).title ++ "\" and \"" ++
    (events.getD p.2 default).title ++ "\""

/-- Mirror of `validateSchedule`: sequentially pushes the missing-timezone
error (empty string is the only falsy `String`), one timing error per
failing event in index order, then one error per overlapping pair; `isValid`
is `errors.length === 0`. -/
def validateSchedule (schedule : ScheduleResponse) : ValidationResult :=
  let tzErrors := if schedule.timezone = "" then ["Timezone is required"] else []
  let timingErrors := schedule.events.enum.filterMap fun p =>
    if isValidEventTiming p.2 then none else some (timingErrorMsg p.1 p.2)
  let overlapErrors := (findOverlappingEvents schedule.events).map
    (overlapErrorMsg schedule.events)
  let errors := tzErrors ++ timingErrors ++ overlapErrors
  ⟨errors.isEmpty, errors⟩

-- ============================================================================
-- ICS text escaping (ics.ts, escapeICSText)
-- ============================================================================

/-- One JavaScript global `replace` pass: every occurrence of `target` is
replaced by the character list `repl`. -/
def replaceChar (target : Char) (repl : List Char) : List Char → List Char
  | [] => []
  | c :: rest => (if c = target then repl else [c]) ++ replaceChar target repl rest

/-- Mirror of `escapeICSText` on code points: the four global substitutions
applied in source order — backslash, then semicolon, then comma, then
newline. -/
def escapeICSList (l : List Char) : List Char :=
  replaceChar '\n' ['\\', 'n']
    (replaceChar ',' ['\\', ',']
      (replaceChar ';' ['\\', ';']
        (replaceChar '\\' ['\\', '\\'] l)))

/-- Mirror of `escapeICSText` on strings. -/
def escapeICSText (text : String) : String :=
  ⟨escapeICSList text.data⟩

/-- Single-character escaping table equivalent to the four sequential
passes (used to state and prove properties of the escaping). -/
def escChar (c : Char) : List Char :=
  if c = '\\' then ['\\', '\\']
  else if c = ';' then ['\\', ';']
  else if c = ',' then ['\\', ',']
  else if c = '\n' then ['\\', 'n']
  else [c]

/-- Domain-specific unescaping of RFC 5545 text: a backslash followed by
backslash / semicolon / comma is dropped, backslash-n becomes a newline,
all other characters pass through. -/
def unescapeICSList : List Char → List Char
  | [] => []
  | [c] => [c]
  | c1 :: c2 :: rest =>
    if c1 = '\\' ∧ (c2 = '\\' ∨ c2 = ';' ∨ c2 = ',') then c2 :: unescapeICSList rest
    else if c1 = '\\' ∧ c2 = 'n' then '\n' :: unescapeICSList rest
    else c1 :: unescapeICSList (c2 :: rest)

/-- Domain-specific unescaping on strings. -/
def unescapeICSText (text : String) : String :=
  ⟨unescapeICSList text.data⟩

-- ============================================================================
-- ICS line folding (ics.ts, foldLine)
-- ============================================================================

/-- Continuation chunks of `foldLine`: while content remains, emit
CRLF, a single space, and up to 74 further characters. -/
def foldRest : List Char → List Char
  | [] => []
  | c :: rest =>
    '\r' :: '\n' :: ' ' :: ((c :: rest).take 74 ++ foldRest ((c :: rest).drop 74))
termination_by l => l.length
decreasing_by simp; omega

/-- Mirror of `foldLine` on code points: lines of length at most 75 pass
through; longer lines keep their first 75 characters and continue in
space-prefixed 74-character chunks joined by CRLF. -/
def foldLineList (l : List Char) : List Char :=
  if l.length ≤ 75 then l else l.take 75 ++ foldRest (l.drop 75)

/-- Mirror of `foldLine` on strings. -/
def foldLine (line : String) : String :=
  ⟨foldLineList line.data⟩

/-- Fuel-driven chunking; `chunks74` always supplies enough fuel, keeping
the definition structurally recursive and hence kernel-computable. -/
def chunks74Aux : Nat → List Char → List (List Char)
  | 0, _ => []
  | _ + 1, [] => []
  | fuel + 1, c :: rest => (c :: rest).take 74 :: chunks74Aux fuel ((c :: rest).drop 74)

/-- Maximal 74-character chunks of a character list (describes the
continuation contents produced by `foldRest`). -/
def chunks74 (l : List Char) : List (List Char) :=
  chunks74Aux l.length l

/-- Whether a character list contains the three-character subsequence
carriage-return, line-feed, space — the sequence that unfolding removes. -/
def hasCRLFSP : List Char → Bool
  | [] => false
  | c :: rest => (decide (c = '\r' ∧ rest.take 2 = ['\n', ' '])) || hasCRLFSP rest

/-- Unfolding: a single left-to-right pass removing every CRLF-plus-space
sequence, as RFC 5545 unfolding does. -/
def unfoldList : List Char → List Char
  | [] => []
  | [c] => [c]
  | [c, d] => [c, d]
  | c :: d :: e :: rest =>
    if c = '\r' ∧ d = '\n' ∧ e = ' '
    then unfoldList rest
    else c :: unfoldList (d :: e :: rest)

/-- Unfolding on strings. -/
def unfoldLine (line : String) : String :=
  ⟨unfoldList line.data⟩

-- ============================================================================
-- UID generation (ics.ts, generateUID)
-- ============================================================================

/-- The character class `[a-zA-Z0-9]` of the sanitising regex in
`generateUID`. -/
def isAlnumASCII (c : Char) : Bool :=
  ('a' ≤ c && c ≤ 'z') || ('A' ≤ c && c ≤ 'Z') || ('0' ≤ c && c ≤ '9')

/-- Mirror of `generateUID`.  `Date.now()` is a nondeterministic input of
the source and is passed in as the explicit millisecond count `nowMs`:
`${timestamp}-${hash}@chat-to-calendar` where `hash` strips every
non-alphanumeric character from `${title}-${start_local}-${index}`. -/
def generateUID (nowMs : Nat) (event : Event) (index : Nat) : String :=
  let hash : String :=
    ⟨(event.title ++ "-" ++ event.start_local ++ "-" ++ natDecimalString index).data.filter
      isAlnumASCII⟩
  natDecimalString nowMs ++ "-" ++ hash ++ "@chat-to-calendar"

-- ============================================================================
-- Date formatting (ics.ts formatDateForICS, appleLink.ts formatDateForApple)
-- ============================================================================

/-- JavaScript `String(n).padStart(2, '0')` for the (always < 100) field
values handled here. -/
def pad2 (n : Nat) : String :=
  if n < 10 then "0" ++ natDecimalString n else natDecimalString n

/-- Mirror of `formatDateForICS` under the fixed parsing rule with host
timezone UTC: `YYYYMMDDTHHMMSSZ` for a parseable input; for an Invalid
Date every getter is NaN and the template renders the literal
`NaNNaNNaNTNaNNaNNaNZ`. -/
def formatDateForICS (localDateTime : String) : String :=
  match parseLocalDT localDateTime with
  | some t =>
    natDecimalString t.year ++ pad2 t.month ++ pad2 t.day ++ "T" ++
      pad2 t.hour ++ pad2 t.minute ++ "00" ++ "Z"
  | none => "NaNNaNNaNTNaNNaNNaNZ"

/-- Mirror of `formatDateForApple` under the fixed parsing rule:
`YYYYMMDDTHHMMSS` with literal seconds "00"; for an Invalid Date every
getter is NaN and the template renders the literal `NaNNaNNaNTNaNNaN00`. -/
def formatDateForApple (localDateTime : String) : String :=
  match parseLocalDT localDateTime with
  | some t =>
    natDecimalString t.year ++ pad2 t.month ++ pad2 t.day ++ "T" ++
      pad2 t.hour ++ pad2 t.minute ++ "00"
  | none => "NaNNaNNaNTNaNNaN00"

-- ============================================================================
-- VEVENT / VCALENDAR serialisation (ics.ts)
-- ============================================================================

/-- Mirror of `createVEvent`.  The generation instant appears as the
explicit pair `nowMs` (for the UID) and `nowISO` (the ISO string whose
re-parse feeds the DTSTAMP line).  A `description` / `location` line is
emitted only when the field is truthy, i.e. present and non-empty. -/
def createVEvent (nowMs : Nat) (nowISO : String) (event : Event) (index : Nat) :
    List String :=
  ["BEGIN:VEVENT",
   "UID:" ++ generateUID nowMs event index,
   "DTSTAMP:" ++ formatDateForICS nowISO,
   "DTSTART:" ++ formatDateForICS event.start_local,
   "DTEND:" ++ formatDateForICS event.end_local,
   "SUMMARY:" ++ escapeICSText event.title]
  ++ (match event.description with
      | some d => if d = "" then [] else ["DESCRIPTION:" ++ escapeICSText d]
      | none => [])
  ++ (match event.location with
      | some l => if l = "" then [] else ["LOCATION:" ++ escapeICSText l]
      | none => [])
  ++ ["END:VEVENT"]

/-- Mirror of `generateICS`: fixed VCALENDAR envelope, one VEVENT block per
event (in order, with its index), every line folded, all joined by CRLF. -/
def generateICS (nowMs : Nat) (nowISO : String) (schedule : ScheduleResponse) :
    String :=
  let lines :=
    ["BEGIN:VCALENDAR", "VERSION:2.0", "PRODID:-//Chat to Calendar//EN",
     "CALSCALE:GREGORIAN", "METHOD:PUBLISH",
     "X-WR-TIMEZONE:" ++ schedule.timezone]
    ++ (schedule.events.enum.flatMap fun p => createVEvent nowMs nowISO p.2 p.1)
    ++ ["END:VCALENDAR"]
  String.intercalate "\r\n" (lines.map foldLine)

-- ============================================================================
-- Apple Calendar link (appleLink.ts)
-- ============================================================================

/-- Upper-case hexadecimal digit, as percent-encoding emits. -/
def hexDigit (d : Nat) : Char :=
  match d with
  | 0 => '0' | 1 => '1' | 2 => '2' | 3 => '3' | 4 => '4'
  | 5 => '5' | 6 => '6' | 7 => '7' | 8 => '8' | 9 => '9'
  | 10 => 'A' | 11 => 'B' | 12 => 'C' | 13 => 'D' | 14 => 'E' | _ => 'F'

/-- UTF-8 bytes of a code point. -/
def utf8Bytes (c : Char) : List Nat :=
  let n := c.toNat
  if n < 128 then [n]
  else if n < 2048 then [192 + n / 64, 128 + n % 64]
  else if n < 65536 then [224 + n / 4096, 128 + n / 64 % 64, 128 + n % 64]
  else [240 + n / 262144, 128 + n / 4096 % 64, 128 + n / 64 % 64, 128 + n % 64]

/-- Percent-encoding of one byte. -/
def percentByte (b : Nat) : List Char :=
  ['%', hexDigit (b / 16), hexDigit (b % 16)]

/-- application/x-www-form-urlencoded serialisation of one character, as
`URLSearchParams.toString()` performs: ASCII alphanumerics and `*`, `-`,
`.`, `_` kept, space becomes `+`, everything else percent-encoded. -/
def formEncodeChar (c : Char) : List Char :=
  if c = ' ' then ['+']
  else if isAlnumASCII c || c = '*' || c = '-' || c = '.' || c = '_' then [c]
  else (utf8Bytes c).flatMap percentByte

/-- Form-urlencoding of a whole string. -/
def formEncode (s : String) : String :=
  ⟨s.data.flatMap formEncodeChar⟩

/-- `URLSearchParams.toString()`: `key=value` entries joined by `&`. -/
def encodeParams (ps : List (String × String)) : String :=
  String.intercalate "&" (ps.map fun p => formEncode p.1 ++ "=" ++ formEncode p.2)

/-- The parameter list built by `generateAppleCalendarLink`: title, starts
and ends always; details / location only when the field is truthy
(present and non-empty). -/
def appleParams (event : Event) : List (String × String) :=
  [("title", event.title),
   ("starts", formatDateForApple event.start_local),
   ("ends", formatDateForApple event.end_local)]
  ++ (match event.description with
      | some d => if d = "" then [] else [("details", d)]
      | none => [])
  ++ (match event.location with
      | some l => if l = "" then [] else [("location", l)]
      | none => [])

/-- Mirror of `generateAppleCalendarLink`.  The timezone argument is
accepted and, as in the source, never used in the produced URL. -/
def generateAppleCalendarLink (event : Event) (_timezone : String) : String :=
  "https://www.icloud.com/calendar/event?" ++ encodeParams (appleParams event)

-- ============================================================================
-- Auxiliary notions used by the stated properties
-- ============================================================================

/-- Orders a pair of indices so the smaller comes first (to speak about
unordered index pairs). -/
def sortPair (p : Nat × Nat) : Nat × Nat :=
  if p.1 ≤ p.2 then p else (p.2, p.1)

/-- Re-indexing of a plain index through a permutation of `Fin n`
(out-of-range indices are left unchanged). -/
def applyIdx (n : Nat) (σ : Equiv.Perm (Fin n)) (i : Nat) : Nat :=
  if h : i < n then (σ ⟨i, h⟩).val else i

/-- Strict lexicographic order on index pairs: first component ascending,
second ascending within equal first. -/
def pairLexLt (p q : Nat × Nat) : Prop :=
  p.1 < q.1 ∨ (p.1 = q.1 ∧ p.2 < q.2)

instance : DecidablePred fun p : (Nat × Nat) × (Nat × Nat) => pairLexLt p.1 p.2 :=
  fun p => by unfold pairLexLt; infer_instance

-- ============================================================================
-- Helper lemmas
-- ============================================================================

theorem jsDateLt_iff (x y : Option Nat) :
    jsDateLt x y = true ↔ ∃ u v, x = some u ∧ y = some v ∧ u < v := by
  cases x <;> cases y <;> simp [jsDateLt]

theorem jsDateLt_self (x : Option Nat) : jsDateLt x x = false := by
  cases x <;> simp [jsDateLt]

theorem eventsOverlap_comm (a b : Event) : eventsOverlap a b = eventsOverlap b a := by
  simp [eventsOverlap, Bool.and_comm]

-- ============================================================================
-- Claim theorems
-- ============================================================================

/-- C1: `eventsOverlap` returns true iff `start_a < end_b` and
`start_b < end_a` under the fixed date-time ordering (both comparisons on
successfully parsed instants), and a pair touching at an endpoint — one
event ending at the very instant the other starts — is never reported as
overlapping, in either argument order. -/
theorem eventsOverlap_halfopen_spec (a b : Event) :
    (eventsOverlap a b = true ↔
      ((∃ sa eb, parseDTNum a.start_local = some sa ∧
          parseDTNum b.end_local = some eb ∧ sa < eb) ∧
       (∃ sb ea, parseDTNum b.start_local = some sb ∧
          parseDTNum a.end_local = some ea ∧ sb < ea))) ∧
    (parseDTNum a.end_local = parseDTNum b.start_local →
      eventsOverlap a b = false ∧ eventsOverlap b a = false) := by
  constructor
  · rw [eventsOverlap, Bool.and_eq_true, jsDateLt_iff, jsDateLt_iff]
  · intro h
    constructor
    · rw [eventsOverlap, ← h, jsDateLt_self, Bool.and_false]
    · rw [eventsOverlap, ← h, jsDateLt_self, Bool.false_and]

/-- C1 witness: the touching pair 07:00–08:00 / 08:00–09:00 shares the
boundary instant and is not reported as overlapping either way. -/
theorem eventsOverlap_halfopen_spec_witness :
    parseDTNum (Event.mk "A" "2026-02-09T07:00" "2026-02-09T08:00" none none).end_local =
      parseDTNum (Event.mk "B" "2026-02-09T08:00" "2026-02-09T09:00" none none).start_local ∧
    eventsOverlap (Event.mk "A" "2026-02-09T07:00" "2026-02-09T08:00" none none)
      (Event.mk "B" "2026-02-09T08:00" "2026-02-09T09:00" none none) = false ∧
    eventsOverlap (Event.mk "B" "2026-02-09T08:00" "2026-02-09T09:00" none none)
      (Event.mk "A" "2026-02-09T07:00" "2026-02-09T08:00" none none) = false :=
  ⟨by decide,
   ((eventsOverlap_halfopen_spec
      (Event.mk "A" "2026-02-09T07:00" "2026-02-09T08:00" none none)
      (Event.mk "B" "2026-02-09T08:00" "2026-02-09T09:00" none none)).2 (by decide)).1,
   ((eventsOverlap_halfopen_spec
      (Event.mk "A" "2026-02-09T07:00" "2026-02-09T08:00" none none)
      (Event.mk "B" "2026-02-09T08:00" "2026-02-09T09:00" none none)).2 (by decide)).2⟩

/-- C7: `isValidEventTiming` holds exactly when both date-time strings
parse under the fixed rule and the end instant is strictly greater than
the start instant; in particular when the two fields denote the same
instant (including both being unparseable) the result is false. -/
theorem isValidEventTiming_spec (e : Event) :
    (isValidEventTiming e = true ↔
      ∃ s t, parseDTNum e.start_local = some s ∧
        parseDTNum e.end_local = some t ∧ s < t) ∧
    (parseDTNum e.start_local = parseDTNum e.end_local →
      isValidEventTiming e = false) := by
  constructor
  · rw [isValidEventTiming, jsDateLt_iff]
  · intro h
    rw [isValidEventTiming, h, jsDateLt_self]

/-- C7 witness: an event whose end equals its start is rejected. -/
theorem isValidEventTiming_spec_witness :
    parseDTNum (Event.mk "E" "2026-02-09T07:00" "2026-02-09T07:00" none none).start_local =
      parseDTNum (Event.mk "E" "2026-02-09T07:00" "2026-02-09T07:00" none none).end_local ∧
    isValidEventTiming (Event.mk "E" "2026-02-09T07:00" "2026-02-09T07:00" none none) = false :=
  ⟨rfl,
   (isValidEventTiming_spec
      (Event.mk "E" "2026-02-09T07:00" "2026-02-09T07:00" none none)).2 rfl⟩

theorem replaceChar_append (t : Char) (r : List Char) (a b : List Char) :
    replaceChar t r (a ++ b) = replaceChar t r a ++ replaceChar t r b := by
  induction a with
  | nil => rfl
  | cons c rest ih => simp [replaceChar, ih]

theorem escapeICSList_cons (c : Char) (l : List Char) :
    escapeICSList (c :: l) = escChar c ++ escapeICSList l := by
  by_cases h1 : c = '\\'
  · subst h1; simp [escapeICSList, replaceChar, replaceChar_append, escChar]
  · by_cases h2 : c = ';'
    · subst h2; simp [escapeICSList, replaceChar, replaceChar_append, escChar]
    · by_cases h3 : c = ','
      · subst h3; simp [escapeICSList, replaceChar, replaceChar_append, escChar]
      · by_cases h4 : c = '\n'
        · subst h4; simp [escapeICSList, replaceChar, replaceChar_append, escChar]
        · simp [escapeICSList, replaceChar, replaceChar_append, escChar, h1, h2, h3, h4]

theorem escapeICSList_eq_flatMap (l : List Char) :
    escapeICSList l = l.flatMap escChar := by
  induction l with
  | nil => rfl
  | cons c rest ih => rw [escapeICSList_cons, ih, List.flatMap_cons]

theorem unescape_cons_of_ne (c : Char) (h : c ≠ '\\') (l : List Char) :
    unescapeICSList (c :: l) = c :: unescapeICSList l := by
  cases l with
  | nil => rfl
  | cons d t => simp [unescapeICSList, h]

theorem unescape_escape (l : List Char) :
    unescapeICSList (l.flatMap escChar) = l := by
  induction l with
  | nil => rfl
  | cons c rest ih =>
    rw [List.flatMap_cons]
    by_cases h1 : c = '\\'
    · subst h1; simp [escChar, unescapeICSList, ih]
    · by_cases h2 : c = ';'
      · subst h2; simp [escChar, unescapeICSList, ih]
      · by_cases h3 : c = ','
        · subst h3; simp [escChar, unescapeICSList, ih]
        · by_cases h4 : c = '\n'
          · subst h4; simp [escChar, unescapeICSList, ih]
          · rw [show escChar c = [c] by simp [escChar, h1, h2, h3, h4],
              List.singleton_append, unescape_cons_of_ne c h1, ih]

/-- C4: `escapeICSText` is the four global substitutions applied in the
fixed source order — backslash first, then semicolon, then comma, then
newline (each reserved character gaining a preceding backslash, newline
becoming backslash-n); equivalently it escapes character-by-character via
`escChar`, and the domain-specific unescape recovers the original text for
every input string (hence in particular for any combination of the
reserved characters), so the escaping is injective. -/
theorem escapeICSText_spec (s : String) :
    escapeICSText s =
      String.mk (replaceChar '\n' ['\\', 'n']
        (replaceChar ',' ['\\', ',']
          (replaceChar ';' ['\\', ';']
            (replaceChar '\\' ['\\', '\\'] s.data)))) ∧
    (escapeICSText s).data = s.data.flatMap escChar ∧
    unescapeICSText (escapeICSText s) = s := by
  refine ⟨rfl, escapeICSList_eq_flatMap s.data, ?_⟩
  apply String.ext
  show unescapeICSList (escapeICSList s.data) = s.data
  rw [escapeICSList_eq_flatMap, unescape_escape]

theorem natToDecimalAux_irrel (f₁ : Nat) : ∀ f₂ n : Nat, n < f₁ → n < f₂ →
    natToDecimalAux f₁ n = natToDecimalAux f₂ n := by
  induction f₁ with
  | zero => intro f₂ n h₁ _; omega
  | succ f ih =>
    intro f₂ n h₁ h₂
    cases f₂ with
    | zero => omega
    | succ f' =>
      by_cases h : n < 10
      · simp [natToDecimalAux, h]
      · have hdiv : n / 10 < n := Nat.div_lt_self (by omega) (by omega)
        simp only [natToDecimalAux, if_neg h]
        rw [ih f' (n / 10) (by omega) (by omega)]

theorem natToDecimal_small (n : Nat) (h : n < 10) :
    natToDecimal n = [decChar n] := by
  simp [natToDecimal, natToDecimalAux, h]

theorem natToDecimal_step (n : Nat) (h : ¬ n < 10) :
    natToDecimal n = natToDecimal (n / 10) ++ [decChar (n % 10)] := by
  have hdiv : n / 10 < n := Nat.div_lt_self (by omega) (by omega)
  show natToDecimalAux (n + 1) n = _
  simp only [natToDecimalAux, if_neg h]
  rw [natToDecimalAux_irrel n (n / 10 + 1) (n / 10) (by omega) (by omega)]
  rfl

theorem decChar_toNat (d : Nat) (h : d < 10) : (decChar d).toNat = 48 + d := by
  interval_cases d <;> rfl

theorem decChar_alnum (d : Nat) : isAlnumASCII (decChar d) = true := by
  unfold decChar
  split <;> decide

theorem decodeDec_natToDecimal (n : Nat) : decodeDec (natToDecimal n) = n := by
  induction n using Nat.strong_induction_on with
  | _ n ih =>
    by_cases h : n < 10
    · rw [natToDecimal_small n h]
      simp [decodeDec, decChar_toNat n h]
    · have hdiv : n / 10 < n := Nat.div_lt_self (by omega) (by omega)
      rw [natToDecimal_step n h]
      have := ih (n / 10) hdiv
      simp only [decodeDec, List.foldl_append] at this ⊢
      rw [this, List.foldl_cons, List.foldl_nil, decChar_toNat (n % 10) (by omega)]
      omega

theorem natToDecimal_inj {m n : Nat} (h : natToDecimal m = natToDecimal n) :
    m = n := by
  have hm := decodeDec_natToDecimal m
  rw [h, decodeDec_natToDecimal] at hm
  omega

theorem natToDecimal_alnum (n : Nat) :
    ∀ c ∈ natToDecimal n, isAlnumASCII c = true := by
  induction n using Nat.strong_induction_on with
  | _ n ih =>
    intro c hc
    by_cases h : n < 10
    · rw [natToDecimal_small n h, List.mem_singleton] at hc
      rw [hc]; exact decChar_alnum n
    · have hdiv : n / 10 < n := Nat.div_lt_self (by omega) (by omega)
      rw [natToDecimal_step n h, List.mem_append, List.mem_singleton] at hc
      rcases hc with hc | hc
      · exact ih (n / 10) hdiv c hc
      · rw [hc]; exact decChar_alnum (n % 10)

theorem natToDecimal_ne_nil (n : Nat) : natToDecimal n ≠ [] := by
  by_cases h : n < 10
  · rw [natToDecimal_small n h]; simp
  · rw [natToDecimal_step n h]; simp

theorem isAlnumASCII_dash : isAlnumASCII '-' = false := by decide

theorem dataMkList (l : List Char) : (String.mk l).data = l := rfl

theorem generateUID_data (nowMs : Nat) (e : Event) (i : Nat) :
    (generateUID nowMs e i).data =
      (natToDecimal nowMs ++ ['-']) ++
        (e.title.data.filter isAlnumASCII ++
          (e.start_local.data.filter isAlnumASCII ++ natToDecimal i)) ++
        ("@chat-to-calendar" : String).data := by
  have hfull : List.filter isAlnumASCII (natToDecimal i) = natToDecimal i :=
    List.filter_eq_self.mpr (natToDecimal_alnum i)
  simp [generateUID, natDecimalString, String.data_append, dataMkList,
    List.filter_append, List.filter_cons, isAlnumASCII_dash, hfull,
    show ("-" : String).data = ['-'] from rfl]

/-- C5 counterexample: two distinct events at distinct positions of one
encoder run (same `Date.now()` millisecond) receive the *same* UID — the
sanitised hash of title "a" at index 12 and of title "a1" at index 2 both
collapse to "a12", so the claimed universal distinctness fails. -/
theorem generateUID_collision_counterexample :
    generateUID 0 (Event.mk "a" "" "" none none) 12 =
      generateUID 0 (Event.mk "a1" "" "" none none) 2 ∧
    Event.mk "a" "" "" none none ≠ Event.mk "a1" "" "" none none ∧
    (12 : Nat) ≠ 2 := by
  refine ⟨?_, ?_, ?_⟩ <;> decide

/-- C5 amended: within one encoder run (a common `Date.now()` value), two
events at distinct positions are guaranteed distinct UIDs when they share
the same title and the same start time; distinct positions alone do not
prevent collisions (see the counterexample). -/
theorem generateUID_spec_amended (nowMs : Nat) (e1 e2 : Event) (i j : Nat)
    (ht : e1.title = e2.title) (hs : e1.start_local = e2.start_local)
    (hij : i ≠ j) :
    generateUID nowMs e1 i ≠ generateUID nowMs e2 j := by
  intro h
  apply hij
  have hd := congrArg String.data h
  rw [generateUID_data, generateUID_data, ht, hs] at hd
  have h1 := List.append_cancel_right hd
  have h2 := List.append_cancel_left h1
  have h3 := List.append_cancel_left h2
  have h4 := List.append_cancel_left h3
  exact natToDecimal_inj h4

/-- C5 witness: two copies of the same event at positions 0 and 1 get
distinct UIDs. -/
theorem generateUID_spec_amended_witness :
    (Event.mk "G" "2026-02-09T07:00" "2026-02-09T08:00" none none).title =
      (Event.mk "G" "2026-02-09T07:00" "2026-02-09T09:00" none none).title ∧
    (Event.mk "G" "2026-02-09T07:00" "2026-02-09T08:00" none none).start_local =
      (Event.mk "G" "2026-02-09T07:00" "2026-02-09T09:00" none none).start_local ∧
    (0 : Nat) ≠ 1 ∧
    generateUID 5 (Event.mk "G" "2026-02-09T07:00" "2026-02-09T08:00" none none) 0 ≠
      generateUID 5 (Event.mk "G" "2026-02-09T07:00" "2026-02-09T09:00" none none) 1 :=
  ⟨rfl, rfl, by decide,
   generateUID_spec_amended 5
     (Event.mk "G" "2026-02-09T07:00" "2026-02-09T08:00" none none)
     (Event.mk "G" "2026-02-09T07:00" "2026-02-09T09:00" none none)
     0 1 rfl rfl (by decide)⟩

/-- C9: an optional field that is present but equal to the empty string is
treated exactly like an absent field (JavaScript falsiness): the
DESCRIPTION / LOCATION line of the VEVENT block and the details / location
URL parameter are omitted, and with both optional fields absent the VEVENT
block and the parameter list contain exactly the mandatory entries. -/
theorem emptyOptional_spec (t s e : String) (desc loc : Option String)
    (nowMs : Nat) (nowISO : String) (idx : Nat) (tz : String) :
    createVEvent nowMs nowISO (Event.mk t s e (some "") loc) idx =
      createVEvent nowMs nowISO (Event.mk t s e none loc) idx ∧
    createVEvent nowMs nowISO (Event.mk t s e desc (some "")) idx =
      createVEvent nowMs nowISO (Event.mk t s e desc none) idx ∧
    appleParams (Event.mk t s e (some "") loc) =
      appleParams (Event.mk t s e none loc) ∧
    appleParams (Event.mk t s e desc (some "")) =
      appleParams (Event.mk t s e desc none) ∧
    generateAppleCalendarLink (Event.mk t s e (some "") loc) tz =
      generateAppleCalendarLink (Event.mk t s e none loc) tz ∧
    generateAppleCalendarLink (Event.mk t s e desc (some "")) tz =
      generateAppleCalendarLink (Event.mk t s e desc none) tz ∧
    createVEvent nowMs nowISO (Event.mk t s e none none) idx =
      ["BEGIN:VEVENT",
       "UID:" ++ generateUID nowMs (Event.mk t s e none none) idx,
       "DTSTAMP:" ++ formatDateForICS nowISO,
       "DTSTART:" ++ formatDateForICS s,
       "DTEND:" ++ formatDateForICS e,
       "SUMMARY:" ++ escapeICSText t,
       "END:VEVENT"] ∧
    appleParams (Event.mk t s e none none) =
      [("title", t), ("starts", formatDateForApple s),
       ("ends", formatDateForApple e)] :=
  ⟨rfl, rfl, rfl, rfl, rfl, rfl, rfl, rfl⟩

theorem formatDateForApple_ne_empty (s : String) : formatDateForApple s ≠ "" := by
  unfold formatDateForApple
  cases hp : parseLocalDT s with
  | none => decide
  | some t =>
    intro h
    have hd := congrArg String.data h
    simp only [String.data_append, natDecimalString, dataMkList,
      List.append_eq_nil] at hd
    exact natToDecimal_ne_nil t.year hd.1.1.1.1.1.1

/-- C6 counterexample: for an event whose date-time fields are unparseable,
the produced URL carries the literal NaN rendering
`starts=NaNNaNNaNTNaNNaN00` — a non-empty parameter value — so the claim
that a malformed field yields an *empty* parameter value fails. -/
theorem appleLink_empty_param_counterexample :
    generateAppleCalendarLink (Event.mk "T" "garbage" "garbage" none none) "UTC" =
      "https://www.icloud.com/calendar/event?title=T&starts=NaNNaNNaNTNaNNaN00&ends=NaNNaNNaNTNaNNaN00" ∧
    generateAppleCalendarLink (Event.mk "T" "garbage" "garbage" none none) "UTC" ≠
      "https://www.icloud.com/calendar/event?title=T&starts=&ends=" := by
  constructor <;> decide

/-- C6 amended: `generateAppleCalendarLink` is total — every Event yields
the fixed URL head followed by the serialised parameters — and when a
required date-time field is malformed (unparseable) the corresponding
parameter value is the literal non-empty NaN rendering
`NaNNaNNaNTNaNNaN00` rather than an empty value or an error; the rendered
date values are never empty. -/
theorem appleLink_spec_amended (e : Event) (tz : String) :
    generateAppleCalendarLink e tz =
      "https://www.icloud.com/calendar/event?" ++ encodeParams (appleParams e) ∧
    (parseLocalDT e.start_local = none →
      formatDateForApple e.start_local = "NaNNaNNaNTNaNNaN00") ∧
    (parseLocalDT e.end_local = none →
      formatDateForApple e.end_local = "NaNNaNNaNTNaNNaN00") ∧
    formatDateForApple e.start_local ≠ "" ∧
    formatDateForApple e.end_local ≠ "" := by
  refine ⟨rfl, ?_, ?_, formatDateForApple_ne_empty _, formatDateForApple_ne_empty _⟩
  · intro h; simp [formatDateForApple, h]
  · intro h; simp [formatDateForApple, h]

/-- C6 witness: a concrete malformed event exercises the NaN branch. -/
theorem appleLink_spec_amended_witness :
    parseLocalDT "garbage" = none ∧
    formatDateForApple "garbage" = "NaNNaNNaNTNaNNaN00" ∧
    formatDateForApple "garbage" ≠ "" :=
  ⟨by decide,
   (appleLink_spec_amended (Event.mk "T" "garbage" "garbage" none none) "UTC").2.1
     (by decide),
   (appleLink_spec_amended (Event.mk "T" "garbage" "garbage" none none) "UTC").2.2.2.1⟩

theorem unfoldList_triple (t : List Char) :
    unfoldList ('\r' :: '\n' :: ' ' :: t) = unfoldList t := by
  simp [unfoldList]

theorem unfoldList_cons_of_ne (c d e : Char) (t : List Char)
    (h : ¬(c = '\r' ∧ d = '\n' ∧ e = ' ')) :
    unfoldList (c :: d :: e :: t) = c :: unfoldList (d :: e :: t) := by
  simp only [unfoldList, if_neg h]

theorem hasCRLFSP_cons (c : Char) (rest : List Char) :
    hasCRLFSP (c :: rest) =
      ((decide (c = '\r' ∧ rest.take 2 = ['\n', ' '])) || hasCRLFSP rest) := rfl

theorem unfold_no_triple : ∀ l : List Char, hasCRLFSP l = false → unfoldList l = l
  | [], _ => rfl
  | [_], _ => rfl
  | [_, _], _ => rfl
  | c :: d :: e :: t, h => by
    rw [hasCRLFSP_cons, Bool.or_eq_false_iff, decide_eq_false_iff_not] at h
    obtain ⟨h1, h2⟩ := h
    rw [unfoldList_cons_of_ne c d e t (by simpa using h1)]
    rw [unfold_no_triple (d :: e :: t) h2]

theorem take2_of_take {n : Nat} {rest : List Char} {a b : Char}
    (h : (rest.take n).take 2 = [a, b]) : rest.take 2 = [a, b] := by
  rw [List.take_take] at h
  rcases n with _ | _ | n
  · simp at h
  · have := congrArg List.length h
    simp at this
    omega
  · have h2 : min 2 (n + 2) = 2 := by omega
    rwa [h2] at h

theorem hasCRLFSP_take {l : List Char} (h : hasCRLFSP l = false) (n : Nat) :
    hasCRLFSP (l.take n) = false := by
  induction l generalizing n with
  | nil => simp [hasCRLFSP]
  | cons c rest ih =>
    cases n with
    | zero => simp [hasCRLFSP]
    | succ n =>
      rw [hasCRLFSP_cons, Bool.or_eq_false_iff, decide_eq_false_iff_not] at h
      rw [List.take_succ_cons, hasCRLFSP_cons, Bool.or_eq_false_iff,
        decide_eq_false_iff_not]
      exact ⟨fun ⟨hc, ht⟩ => h.1 ⟨hc, take2_of_take ht⟩, ih h.2 n⟩

theorem hasCRLFSP_drop {l : List Char} (h : hasCRLFSP l = false) (n : Nat) :
    hasCRLFSP (l.drop n) = false := by
  induction l generalizing n with
  | nil => simp [hasCRLFSP]
  | cons c rest ih =>
    cases n with
    | zero => exact h
    | succ n =>
      rw [hasCRLFSP_cons, Bool.or_eq_false_iff] at h
      exact ih h.2 n

theorem unfold_append_triple :
    ∀ p s : List Char, hasCRLFSP p = false →
      unfoldList (p ++ '\r' :: '\n' :: ' ' :: s) = p ++ unfoldList s
  | [], s, _ => unfoldList_triple s
  | [c], s, _ => by
    rw [List.singleton_append, unfoldList_cons_of_ne c '\r' '\n' _ (by simp),
      unfoldList_triple]
    rfl
  | [c, d], s, _ => by
    have h1 : ¬(c = '\r' ∧ d = '\n' ∧ '\r' = ' ') := by simp
    rw [show ([c, d] : List Char) ++ '\r' :: '\n' :: ' ' :: s =
          c :: d :: '\r' :: '\n' :: ' ' :: s from rfl,
      unfoldList_cons_of_ne c d '\r' _ h1,
      show (d :: '\r' :: '\n' :: ' ' :: s : List Char) =
          [d] ++ '\r' :: '\n' :: ' ' :: s from rfl,
      unfold_append_triple [d] s (by simp [hasCRLFSP])]
    rfl
  | c :: d :: e :: t, s, h => by
    rw [hasCRLFSP_cons, Bool.or_eq_false_iff, decide_eq_false_iff_not] at h
    obtain ⟨h1, h2⟩ := h
    have h1' : ¬(c = '\r' ∧ d = '\n' ∧ e = ' ') := by simpa using h1
    rw [show (c :: d :: e :: t : List Char) ++ '\r' :: '\n' :: ' ' :: s =
          c :: d :: e :: (t ++ '\r' :: '\n' :: ' ' :: s) from rfl,
      unfoldList_cons_of_ne c d e _ h1',
      show (d :: e :: (t ++ '\r' :: '\n' :: ' ' :: s) : List Char) =
          (d :: e :: t) ++ '\r' :: '\n' :: ' ' :: s from rfl,
      unfold_append_triple (d :: e :: t) s h2]
    rfl

theorem chunks74Aux_irrel (f₁ : Nat) : ∀ f₂ l, List.length l ≤ f₁ → List.length l ≤ f₂ →
    chunks74Aux f₁ l = chunks74Aux f₂ l := by
  induction f₁ with
  | zero =>
    intro f₂ l h1 _
    have hl : l = [] := List.eq_nil_of_length_eq_zero (by omega)
    subst hl; cases f₂ <;> rfl
  | succ f ih =>
    intro f₂ l h1 h2
    cases l with
    | nil => cases f₂ <;> rfl
    | cons c rest =>
      cases f₂ with
      | zero => simp at h2
      | succ f' =>
        simp only [chunks74Aux]
        congr 1
        simp only [List.length_cons] at h1 h2
        apply ih <;> simp only [List.length_drop, List.length_cons] <;> omega

theorem foldRest_nil : foldRest [] = [] := by simp [foldRest]

theorem foldRest_cons (c : Char) (t : List Char) :
    foldRest (c :: t) =
      '\r' :: '\n' :: ' ' :: ((c :: t).take 74 ++ foldRest ((c :: t).drop 74)) := by
  rw [foldRest]

theorem chunks74_nil : chunks74 [] = [] := rfl

theorem chunks74_cons (c : Char) (rest : List Char) :
    chunks74 (c :: rest) = (c :: rest).take 74 :: chunks74 ((c :: rest).drop 74) := by
  show chunks74Aux (rest.length + 1) (c :: rest) = _
  simp only [chunks74Aux]
  congr 1
  exact chunks74Aux_irrel rest.length _ _
    (by simp only [List.length_drop, List.length_cons]; omega) (le_refl _)

theorem foldRest_eq_chunks : ∀ l : List Char,
    foldRest l = (chunks74 l).flatMap (fun c => '\r' :: '\n' :: ' ' :: c)
  | [] => by simp [foldRest_nil, chunks74_nil]
  | c :: t => by
    rw [foldRest_cons, chunks74_cons, List.flatMap_cons,
      foldRest_eq_chunks ((c :: t).drop 74)]
    simp
termination_by l => l.length
decreasing_by simp; omega

theorem chunks74_bounds : ∀ l : List Char, ∀ c ∈ chunks74 l, c.length ≤ 74 ∧ c ≠ []
  | [] => by simp [chunks74_nil]
  | c :: t => by
    rw [chunks74_cons]
    intro x hx
    rcases List.mem_cons.mp hx with hx | hx
    · subst hx
      refine ⟨by simp, fun hcontra => ?_⟩
      have := congrArg List.length hcontra
      simp at this
    · exact chunks74_bounds ((c :: t).drop 74) x hx
termination_by l => l.length
decreasing_by simp; omega

theorem unfold_foldRest : ∀ l : List Char, hasCRLFSP l = false →
    unfoldList (foldRest l) = l
  | [], _ => by simp [foldRest_nil, unfoldList]
  | c :: t, h => by
    rw [foldRest_cons, unfoldList_triple]
    rcases hd : (c :: t).drop 74 with _ | ⟨d, s⟩
    · rw [foldRest_nil, List.append_nil]
      have htake : (c :: t).take 74 = c :: t :=
        List.take_of_length_le (by have := List.drop_eq_nil_iff.mp hd; omega)
      rw [htake]
      exact unfold_no_triple _ h
    · have hrec := unfold_foldRest ((c :: t).drop 74) (hasCRLFSP_drop h 74)
      rw [hd, foldRest_cons, unfoldList_triple] at hrec
      rw [foldRest_cons, unfold_append_triple _ _ (hasCRLFSP_take h 74), hrec,
        ← hd, List.take_append_drop]
termination_by l => l.length
decreasing_by simp; omega

theorem unfold_foldLineList (l : List Char) (h : hasCRLFSP l = false) :
    unfoldList (foldLineList l) = l := by
  rw [foldLineList]
  by_cases hl : l.length ≤ 75
  · rw [if_pos hl]; exact unfold_no_triple l h
  · rw [if_neg hl]
    rcases hd : l.drop 75 with _ | ⟨d, s⟩
    · rw [List.drop_eq_nil_iff] at hd; omega
    · have hrec := unfold_foldRest (l.drop 75) (hasCRLFSP_drop h 75)
      rw [hd, foldRest_cons, unfoldList_triple] at hrec
      rw [foldRest_cons, unfold_append_triple _ _ (hasCRLFSP_take h 75), hrec,
        ← hd, List.take_append_drop]

theorem intercalate_crlf : ∀ (a : List Char) (cs : List (List Char)),
    List.intercalate ['\r', '\n'] (a :: cs.map (fun c => ' ' :: c)) =
      a ++ cs.flatMap (fun c => '\r' :: '\n' :: ' ' :: c)
  | a, [] => by simp [List.intercalate]
  | a, c :: cs => by
    rw [List.map_cons,
      show List.intercalate ['\r', '\n'] (a :: (' ' :: c) :: (cs.map fun x => ' ' :: x)) =
          a ++ ['\r', '\n'] ++
            List.intercalate ['\r', '\n'] ((' ' :: c) :: (cs.map fun x => ' ' :: x)) from by
        simp [List.intercalate, List.intersperse],
      intercalate_crlf (' ' :: c) cs]
    simp

/-- C2 counterexample: folding leaves the four-character line CR LF SP 'a'
unchanged (length at most 75), and unfolding — removing every
CRLF-plus-space sequence — then yields "a", not the original line, so the
roundtrip claimed for *every* input string fails. -/
theorem foldLine_roundtrip_counterexample :
    ("\r\n a" : String).data.length ≤ 75 ∧
    foldLine "\r\n a" = "\r\n a" ∧
    unfoldLine (foldLine "\r\n a") = "a" ∧
    unfoldLine (foldLine "\r\n a") ≠ "\r\n a" := by
  exact ⟨by decide, by decide, by decide, by decide⟩

/-- C2 amended: `foldLine` leaves lines of length at most 75 unchanged and
splits longer lines into the first 75 characters followed by
space-prefixed chunks of at most 74 content characters joined by CRLF;
removing every CRLF-plus-leading-space sequence from the folded result
reconstructs the original exactly for every line that does not itself
contain the CRLF-plus-space sequence (for lines containing it the claimed
universal roundtrip fails, see the counterexample). -/
theorem foldLine_spec (s : String) :
    (foldLine s).data =
      (if s.data.length ≤ 75 then s.data
       else List.intercalate ['\r', '\n']
         (s.data.take 75 :: (chunks74 (s.data.drop 75)).map (fun c => ' ' :: c))) ∧
    (∀ c ∈ chunks74 (s.data.drop 75), c.length ≤ 74 ∧ c ≠ []) ∧
    (hasCRLFSP s.data = false → unfoldLine (foldLine s) = s) := by
  refine ⟨?_, chunks74_bounds _, ?_⟩
  · by_cases hl : s.data.length ≤ 75
    · rw [if_pos hl]
      show foldLineList s.data = s.data
      rw [foldLineList, if_pos hl]
    · rw [if_neg hl, intercalate_crlf]
      show foldLineList s.data = _
      rw [foldLineList, if_neg hl, foldRest_eq_chunks]
  · intro h
    apply String.ext
    show unfoldList (foldLineList s.data) = s.data
    exact unfold_foldLineList s.data h

/-- C2 witness: an 80-character line folds into a 75-character head plus
one 5-character chunk and unfolds back exactly. -/
theorem foldLine_spec_witness :
    hasCRLFSP (String.mk (List.replicate 80 'a')).data = false ∧
    unfoldLine (foldLine (String.mk (List.replicate 80 'a'))) =
      String.mk (List.replicate 80 'a') ∧
    List.replicate 5 'a' ∈ chunks74 ((String.mk (List.replicate 80 'a')).data.drop 75) ∧
    (List.replicate 5 'a').length ≤ 74 ∧ List.replicate 5 'a' ≠ [] := by
  refine ⟨by decide, (foldLine_spec _).2.2 (by decide), by decide, ?_, ?_⟩
  · exact ((foldLine_spec (String.mk (List.replicate 80 'a'))).2.1
      (List.replicate 5 'a') (by decide)).1
  · exact ((foldLine_spec (String.mk (List.replicate 80 'a'))).2.1
      (List.replicate 5 'a') (by decide)).2

theorem mem_ifPair {a b : Nat} {cond : Prop} [Decidable cond] {x : Nat × Nat}
    (hx : x ∈ (if cond then some (a, b) else none)) : x = (a, b) ∧ cond := by
  by_cases hc : cond
  · rw [if_pos hc] at hx
    exact ⟨(by simpa using hx : (a, b) = x).symm, hc⟩
  · rw [if_neg hc] at hx
    exact absurd hx (by simp)

theorem mem_findOverlappingEvents (es : List Event) (i j : Nat) :
    (i, j) ∈ findOverlappingEvents es ↔
      i < j ∧ j < es.length ∧
        eventsOverlap (es.getD i default) (es.getD j default) = true := by
  rw [findOverlappingEvents]
  simp only [List.mem_flatMap, List.mem_filterMap, List.mem_range]
  constructor
  · rintro ⟨a, _, b, hb, hab⟩
    obtain ⟨heq, hcond⟩ := mem_ifPair (Option.mem_def.mpr hab)
    have h1 : i = a := congrArg Prod.fst heq
    have h2 : j = b := congrArg Prod.snd heq
    subst h1; subst h2
    exact ⟨hcond.1, hb, hcond.2⟩
  · rintro ⟨hij, hj, hov⟩
    exact ⟨i, by omega, j, hj, by rw [if_pos ⟨hij, hov⟩]⟩

theorem findOverlappingEvents_sorted (es : List Event) :
    List.Pairwise pairLexLt (findOverlappingEvents es) := by
  rw [findOverlappingEvents, List.pairwise_flatMap]
  refine ⟨fun a _ => ?_, ?_⟩
  · rw [List.pairwise_filterMap]
    refine (List.pairwise_lt_range es.length).imp ?_
    intro j j' hjj' b hb b' hb'
    obtain ⟨rfl, -⟩ := mem_ifPair hb
    obtain ⟨rfl, -⟩ := mem_ifPair hb'
    exact Or.inr ⟨rfl, hjj'⟩
  · refine (List.pairwise_lt_range es.length).imp ?_
    intro i i' hii' x hx y hy
    rw [List.mem_filterMap] at hx hy
    obtain ⟨j, -, hj⟩ := hx
    obtain ⟨j', -, hj'⟩ := hy
    obtain ⟨rfl, -⟩ := mem_ifPair (Option.mem_def.mpr hj)
    obtain ⟨rfl, -⟩ := mem_ifPair (Option.mem_def.mpr hj')
    exact Or.inl hii'

theorem findOverlappingEvents_nodup (es : List Event) :
    (findOverlappingEvents es).Nodup := by
  refine (findOverlappingEvents_sorted es).imp ?_
  intro a b hab
  rintro rfl
  rcases hab with h | ⟨-, h⟩ <;> exact absurd h (lt_irrefl _)

theorem eventsOverlap_self_eq_timing (e : Event) :
    eventsOverlap e e = isValidEventTiming e := by
  rw [eventsOverlap, isValidEventTiming, Bool.and_self]

theorem getD_ofFn {n : Nat} (g : Fin n → Event) (i : Nat) (h : i < n) :
    (List.ofFn g).getD i default = g ⟨i, h⟩ := by
  rw [List.getD_eq_getElem?_getD, List.getElem?_ofFn]
  simp [List.ofFnNthVal, h]

theorem applyIdx_lt {n : Nat} (σ : Equiv.Perm (Fin n)) {i : Nat} (h : i < n) :
    applyIdx n σ i = (σ ⟨i, h⟩).val := dif_pos h

/-- C3: `validateSchedule` is valid exactly when its error list is empty;
the error list is the full accumulation — the missing-timezone error
first, then one timing error per failing event in index order, then one
error naming both titles per overlapping pair — and the overlapping pairs
are produced with first index ascending and, within an equal first index,
second index ascending. -/
theorem validateSchedule_spec (schedule : ScheduleResponse) :
    ((validateSchedule schedule).isValid = true ↔
      (validateSchedule schedule).errors = []) ∧
    (validateSchedule schedule).errors =
      (if schedule.timezone = "" then ["Timezone is required"] else []) ++
      (schedule.events.enum.filterMap fun p =>
        if isValidEventTiming p.2 then none else some (timingErrorMsg p.1 p.2)) ++
      ((findOverlappingEvents schedule.events).map
        (overlapErrorMsg schedule.events)) ∧
    List.Pairwise pairLexLt (findOverlappingEvents schedule.events) := by
  refine ⟨?_, rfl, findOverlappingEvents_sorted _⟩
  show (validateSchedule schedule).errors.isEmpty = true ↔
    (validateSchedule schedule).errors = []
  exact List.isEmpty_iff

/-- C10: every pair returned by `findOverlappingEvents` satisfies
`i < j < n`, the returned pair list has no duplicates (so each unordered
index pair appears at most once and no event is paired with itself), and
two identical copies of one positive-duration event at distinct indices
are reported as an overlapping pair. -/
theorem findOverlappingEvents_pairs_spec (es : List Event) :
    (∀ p ∈ findOverlappingEvents es, p.1 < p.2 ∧ p.2 < es.length) ∧
    (findOverlappingEvents es).Nodup ∧
    (∀ i j, i < j → j < es.length →
      es.getD i default = es.getD j default →
      isValidEventTiming (es.getD i default) = true →
      (i, j) ∈ findOverlappingEvents es) := by
  refine ⟨?_, findOverlappingEvents_nodup es, ?_⟩
  · rintro ⟨i, j⟩ hp
    obtain ⟨h1, h2, -⟩ := (mem_findOverlappingEvents es i j).mp hp
    exact ⟨h1, h2⟩
  · intro i j hij hj heq htiming
    have hov : eventsOverlap (es.getD i default) (es.getD j default) = true := by
      rw [← heq, eventsOverlap_self_eq_timing]
      exact htiming
    exact (mem_findOverlappingEvents es i j).mpr ⟨hij, hj, hov⟩

/-- C10 witness: two copies of one positive-duration event are reported as
the overlapping pair (0, 1), which indeed satisfies the bound invariants. -/
theorem findOverlappingEvents_pairs_spec_witness :
    (0, 1) ∈ findOverlappingEvents
      [Event.mk "D" "2026-02-09T07:00" "2026-02-09T08:00" none none,
       Event.mk "D" "2026-02-09T07:00" "2026-02-09T08:00" none none] ∧
    (0, 1).1 < (0, 1).2 ∧
    (0, 1).2 < ([Event.mk "D" "2026-02-09T07:00" "2026-02-09T08:00" none none,
       Event.mk "D" "2026-02-09T07:00" "2026-02-09T08:00" none none] : List Event).length := by
  have hmem := (findOverlappingEvents_pairs_spec
    [Event.mk "D" "2026-02-09T07:00" "2026-02-09T08:00" none none,
     Event.mk "D" "2026-02-09T07:00" "2026-02-09T08:00" none none]).2.2
    0 1 (by decide) (by decide) rfl (by decide)
  have hbounds := (findOverlappingEvents_pairs_spec
    [Event.mk "D" "2026-02-09T07:00" "2026-02-09T08:00" none none,
     Event.mk "D" "2026-02-09T07:00" "2026-02-09T08:00" none none]).1
    (0, 1) hmem
  exact ⟨hmem, hbounds.1, hbounds.2⟩

/-- C8: `findOverlappingEvents` is permutation-invariant: permuting the
event list by `σ` and re-indexing each returned pair through `σ`
(normalising the unordered pair so the smaller index comes first) yields
exactly the pair set of the original list. -/
theorem findOverlappingEvents_perm_invariant (n : Nat) (f : Fin n → Event)
    (σ : Equiv.Perm (Fin n)) (p : Nat × Nat) :
    p ∈ (findOverlappingEvents (List.ofFn fun k => f (σ k))).map
        (fun q => sortPair (applyIdx n σ q.1, applyIdx n σ q.2)) ↔
      p ∈ findOverlappingEvents (List.ofFn f) := by
  constructor
  · intro hp
    rw [List.mem_map] at hp
    obtain ⟨⟨a, b⟩, hmem, hq⟩ := hp
    rw [mem_findOverlappingEvents, List.length_ofFn] at hmem
    obtain ⟨hab, hb, hov⟩ := hmem
    have ha : a < n := lt_trans hab hb
    rw [getD_ofFn _ a ha, getD_ofFn _ b hb] at hov
    subst hq
    rw [applyIdx_lt σ ha, applyIdx_lt σ hb]
    have hne : (σ ⟨a, ha⟩).val ≠ (σ ⟨b, hb⟩).val := by
      intro h
      have h2 : (⟨a, ha⟩ : Fin n) = ⟨b, hb⟩ := σ.injective (Fin.val_injective h)
      have h3 : a = b := congrArg Fin.val h2
      omega
    rw [sortPair]
    by_cases hle : (σ ⟨a, ha⟩).val ≤ (σ ⟨b, hb⟩).val
    · rw [if_pos hle]
      rw [mem_findOverlappingEvents, List.length_ofFn]
      refine ⟨lt_of_le_of_ne hle hne, (σ ⟨b, hb⟩).isLt, ?_⟩
      rw [getD_ofFn f _ (σ ⟨a, ha⟩).isLt, getD_ofFn f _ (σ ⟨b, hb⟩).isLt]
      simpa [Fin.eta] using hov
    · rw [if_neg hle]
      push_neg at hle
      rw [mem_findOverlappingEvents, List.length_ofFn]
      refine ⟨hle, (σ ⟨a, ha⟩).isLt, ?_⟩
      rw [getD_ofFn f _ (σ ⟨b, hb⟩).isLt, getD_ofFn f _ (σ ⟨a, ha⟩).isLt]
      rw [eventsOverlap_comm]
      simpa [Fin.eta] using hov
  · intro hp
    obtain ⟨a, b⟩ := p
    rw [mem_findOverlappingEvents, List.length_ofFn] at hp
    obtain ⟨hab, hb, hov⟩ := hp
    have ha : a < n := lt_trans hab hb
    rw [getD_ofFn f a ha, getD_ofFn f b hb] at hov
    rw [List.mem_map]
    have hne : (σ.symm ⟨a, ha⟩) ≠ (σ.symm ⟨b, hb⟩) := by
      intro h
      have h2 : (⟨a, ha⟩ : Fin n) = ⟨b, hb⟩ := σ.symm.injective h
      have h3 : a = b := congrArg Fin.val h2
      omega
    by_cases hcase : (σ.symm ⟨a, ha⟩).val < (σ.symm ⟨b, hb⟩).val
    · refine ⟨((σ.symm ⟨a, ha⟩).val, (σ.symm ⟨b, hb⟩).val), ?_, ?_⟩
      · rw [mem_findOverlappingEvents, List.length_ofFn]
        refine ⟨hcase, (σ.symm ⟨b, hb⟩).isLt, ?_⟩
        rw [getD_ofFn _ _ (σ.symm ⟨a, ha⟩).isLt, getD_ofFn _ _ (σ.symm ⟨b, hb⟩).isLt]
        simpa [Fin.eta, Equiv.apply_symm_apply] using hov
      · rw [applyIdx_lt σ (σ.symm ⟨a, ha⟩).isLt, applyIdx_lt σ (σ.symm ⟨b, hb⟩).isLt]
        simp only [Fin.eta, Equiv.apply_symm_apply]
        rw [sortPair, if_pos (le_of_lt hab)]
    · have hcase' : (σ.symm ⟨b, hb⟩).val < (σ.symm ⟨a, ha⟩).val := by
        rcases Nat.lt_or_ge (σ.symm ⟨b, hb⟩).val (σ.symm ⟨a, ha⟩).val with h | h
        · exact h
        · exact absurd (Fin.val_injective (by omega)) hne
      refine ⟨((σ.symm ⟨b, hb⟩).val, (σ.symm ⟨a, ha⟩).val), ?_, ?_⟩
      · rw [mem_findOverlappingEvents, List.length_ofFn]
        refine ⟨hcase', (σ.symm ⟨a, ha⟩).isLt, ?_⟩
        rw [getD_ofFn _ _ (σ.symm ⟨b, hb⟩).isLt, getD_ofFn _ _ (σ.symm ⟨a, ha⟩).isLt]
        rw [eventsOverlap_comm]
        simpa [Fin.eta, Equiv.apply_symm_apply] using hov
      · rw [applyIdx_lt σ (σ.symm ⟨b, hb⟩).isLt, applyIdx_lt σ (σ.symm ⟨a, ha⟩).isLt]
        simp only [Fin.eta, Equiv.apply_symm_apply]
        rw [sortPair, if_neg (by simp; omega)]
